import Mathlib

/-!
Shallow embedding of the crawl scheduler in `src/scraper/bunpro.py`
(grammar_dict_update_scraper): the sleep-budget allocator
`gen_random_sleeps`, the outcome classifier `process_response`, the
persistence sink `save_source_code` and the crawl executor `scrape_sites`.

Modelling conventions:
* Python strings are `List Char` (`Str`), so that `str.split` can be
  modelled by a recursive function with provable properties.
* The file system is an association list from filenames to contents;
  `fsWrite` prepends and `fsLookup` takes the first hit, which gives
  overwrite semantics.
* Randomness (`random.uniform`, `random.shuffle`), the network, I/O
  failures and timestamps are oracles passed as explicit arguments.
* `time.sleep`, file writes, session open/close, fetches and skips are
  recorded in an explicit event trace (`Ev`).
* Machine floats of the Python code are modelled as rationals.
-/

/-- Python strings, modelled as lists of characters. -/
abbrev Str := List Char

/-- Python's `s.split(sep)` for a one-character separator: splits on every
occurrence, keeping empty groups; the result is never empty. -/
def pySplit (sep : Char) : Str → List Str
  | [] => [[]]
  | c :: rest =>
    let groups := pySplit sep rest
    if c = sep then [] :: groups
    else
      match groups with
      | [] => [[c]]
      | g :: gs => (c :: g) :: gs

/-- `site.split("/")[-1]`: the trailing path segment. -/
def lastSeg (s : Str) : Str := (pySplit '/' s).getLastD []

/-- `name.split(".")[0]`: the part of a filename before its first dot. -/
def splitDot (s : Str) : Str := (pySplit '.' s).headD []

/-- The value of a hexadecimal digit, as used by percent-decoding. -/
def hexVal (c : Char) : Option Nat :=
  if '0' ≤ c ∧ c ≤ '9' then some (c.toNat - '0'.toNat)
  else if 'a' ≤ c ∧ c ≤ 'f' then some (c.toNat - 'a'.toNat + 10)
  else if 'A' ≤ c ∧ c ≤ 'F' then some (c.toNat - 'A'.toNat + 10)
  else none

/-- `urllib.parse.unquote`, modelled at character level: a `%` followed by
two hex digits decodes to the character with that code; anything else is
copied through.  (The library decodes percent escapes to bytes and then
UTF-8; the claims never depend on multi-byte decoding, only on the same
function being used for the artifact filename and the resume check.) -/
def unquoteAux : Nat → Str → Str
  | _, [] => []
  | 0, s => s
  | fuel + 1, c :: rest =>
    if c = '%' then
      match rest with
      | a :: b :: rest2 =>
        match hexVal a, hexVal b with
        | some x, some y => Char.ofNat (16 * x + y) :: unquoteAux fuel rest2
        | _, _ => '%' :: unquoteAux fuel rest
      | _ => '%' :: unquoteAux fuel rest
    else
      c :: unquoteAux fuel rest

/-- See `unquoteAux`: the fuel — one unit per decoded or copied
character — starts at the string length, which every run of the scan
stays within. -/
def unquote (s : Str) : Str := unquoteAux s.length s

/-- The output artifact store (`grammar_pages` directory): an association
list from filename to file content; the first binding for a key wins. -/
abbrev FS := List (Str × Str)

/-- Read a file from the store. -/
def fsLookup : FS → Str → Option Str
  | [], _ => none
  | (k, v) :: rest, key => if k = key then some v else fsLookup rest key

/-- Write a file to the store (overwrites any previous binding). -/
def fsWrite (fs : FS) (k v : Str) : FS := (k, v) :: fs

/-- `os.listdir` on the store: the list of filenames. -/
def fsList (fs : FS) : List Str := fs.map Prod.fst

/-- `BeautifulSoup(text).prettify()`: an external library transformation
of the page text; the claims never depend on its value, so it is modelled
as the identity. -/
def prettify (s : Str) : Str := s

/-- Observable side effects of the scheduler, in program order. -/
inductive Ev where
  /-- `requests.Session()` created: session id, and the sleep time of the
  item that triggered the open. -/
  | openS (sid : Nat) (st : ℚ)
  /-- `session.close()` on the session with this id. -/
  | closeS (sid : Nat)
  /-- network request for item `i` (0-based position in the batch) at the
  percent-encoded URL, either through the live session or one-shot. -/
  | fetch (i : Nat) (site : Str) (viaSession : Bool)
  /-- item `i` skipped by the resume filter, no network call. -/
  | skipEv (i : Nat) (site : Str)
  /-- `time.sleep(d)`. -/
  | sleepEv (d : ℚ)
  /-- successful file write. -/
  | writeEv (name content : Str)
  /-- `IOError` during the file write, logged and swallowed. -/
  | writeFailEv (name : Str)
deriving DecidableEq, Repr

/-- The `ResponseResult` namedtuple. -/
structure ResponseResult where
  action : String
  site : Str
  sleep_time : ℚ
  scraped : Bool
deriving DecidableEq, Repr

/-- An HTTP response as far as the scheduler inspects it. -/
structure Response where
  status_code : Nat
  text : Str
deriving DecidableEq, Repr

/-- `response.raise_for_status()`: raises `requests.exceptions.HTTPError`
exactly when the status code is 4xx or 5xx. -/
def raise_for_status (r : Response) : Except String Unit :=
  if 400 ≤ r.status_code ∧ r.status_code < 600 then
    Except.error "HTTPError"
  else
    Except.ok ()

/-- `save_source_code(soup, site)`: derive the filename by decoding the
trailing path segment and appending `.html`; if that file already exists,
append `_<timestamp>.html` instead of overwriting; then write, logging and
swallowing any `IOError`.  `ts` is the timestamp string and `ioFails`
tells whether the write raises `IOError`. -/
def save_source_code (soupText : Str) (site : Str) (ts : Str) (ioFails : Bool)
    (fs : FS) : FS × List Ev :=
  let filename0 := unquote (lastSeg site) ++ ".html".toList
  let filename :=
    if (fsLookup fs filename0).isSome then
      filename0 ++ "_".toList ++ ts ++ ".html".toList
    else
      filename0
  if ioFails then
    (fs, [Ev.writeFailEv filename])
  else
    (fsWrite fs filename soupText, [Ev.writeEv filename soupText])

/-- `process_response(response, site, sleep_time)`: first
`raise_for_status` (its `HTTPError` is caught and classified as
`"error"`); then the rate-limit check (`status_code == 429` →
`"break"`); otherwise sleep for `sleep_time`, parse and persist, and
return `"scrape"` with `scraped = True`.  Returns the `ResponseResult`,
the updated store, and the effect trace of the call. -/
def process_response (response : Response) (site : Str) (sleep_time : ℚ)
    (ts : Str) (ioFails : Bool) (fs : FS) : ResponseResult × FS × List Ev :=
  match raise_for_status response with
  | Except.error _ =>
    (⟨"error", site, sleep_time, false⟩, fs, [])
  | Except.ok _ =>
    if response.status_code = 429 then
      (⟨"break", site, sleep_time, false⟩, fs, [])
    else
      let saved := save_source_code (prettify response.text) site ts ioFails fs
      (⟨"scrape", site, sleep_time, true⟩, saved.1, Ev.sleepEv sleep_time :: saved.2)

/-- The slack-distribution loop of `gen_random_sleeps`: for slot `i`
(`n` slots in total), unless `remaining <= 0`, draw
`additional_sleep = u i * (remaining / (n - i))` — `u i ∈ [0,1]` models
`random.uniform(0, max_additional_sleep)` — add it to the slot and
subtract it from `remaining`. -/
def allocGo (u : Nat → ℚ) (n : Nat) : Nat → ℚ → List ℚ → List ℚ
  | _, _, [] => []
  | i, remaining, x :: rest =>
    if remaining ≤ 0 then
      x :: rest
    else
      let max_additional_sleep := remaining / ((n : ℚ) - (i : ℚ))
      let additional_sleep := u i * max_additional_sleep
      (x + additional_sleep) :: allocGo u n (i + 1) (remaining - additional_sleep) rest

/-- Swap the entries at positions `i` and `j` of a list; out-of-range
positions leave the list unchanged. -/
def listSwap (l : List ℚ) (i j : Nat) : List ℚ :=
  match l.get? i, l.get? j with
  | some a, some b => (l.set i b).set j a
  | _, _ => l

/-- `random.shuffle`'s Fisher–Yates loop: for `i` from `len-1` down to 1,
swap position `i` with position `js i % (i+1)` (the oracle `js` models the
random index draws). -/
def fyAux (js : Nat → Nat) : Nat → List ℚ → List ℚ
  | 0, l => l
  | k + 1, l => fyAux js k (listSwap l (k + 1) (js (k + 1) % (k + 2)))

/-- `random.shuffle(l)`. -/
def pyShuffle (js : Nat → Nat) (l : List ℚ) : List ℚ :=
  fyAux js (l.length - 1) l

/-- `gen_random_sleeps(min_sleep, max_total_time, n_requests)`: raise
`ValueError` when the minimum floor alone exceeds the budget; otherwise
start every slot at `min_sleep`, distribute the slack with `allocGo`,
check the length invariant (raising `ValueError` on mismatch), and
shuffle.  `u` models the `random.uniform` draws as fractions of the
allowed maximum and `js` the `random.shuffle` index draws. -/
def gen_random_sleeps (min_sleep max_total_time : ℚ) (n_requests : Nat)
    (u : Nat → ℚ) (js : Nat → Nat) : Except String (List ℚ) :=
  if (n_requests : ℚ) * min_sleep > max_total_time then
    Except.error "Minimum sleep times number of requests exceed the maximum total time."
  else
    let remaining_time := max_total_time - (n_requests : ℚ) * min_sleep
    let sleep_intervals :=
      allocGo u n_requests 0 remaining_time (List.replicate n_requests min_sleep)
    if sleep_intervals.length ≠ n_requests then
      Except.error "Error generating sleep intervals"
    else
      Except.ok (pyShuffle js sleep_intervals)

/-- A hexadecimal digit character (uppercase), for percent-encoding. -/
def hexDigit (n : Nat) : Char :=
  if n < 10 then Char.ofNat ('0'.toNat + n) else Char.ofNat ('A'.toNat + n - 10)

/-- Characters `urllib.parse.quote(site, safe=":/?=&")` leaves unencoded:
the always-safe characters (letters, digits, `_.-~`) plus the given safe
set. -/
def isSafeChar (c : Char) : Bool :=
  c.isAlphanum || c ∈ ['_', '.', '-', '~', ':', '/', '?', '=', '&']

/-- `urllib.parse.quote(site, safe=":/?=&")`, modelled at character
level. -/
def pyQuote : Str → Str
  | [] => []
  | c :: rest =>
    (if isSafeChar c then [c]
     else ['%', hexDigit (c.toNat / 16 % 16), hexDigit (c.toNat % 16)]) ++ pyQuote rest

/-- What the network returns for one item: a response, a
`requests.exceptions.Timeout`, another `requests.exceptions.RequestException`,
or a `KeyboardInterrupt` arriving during the request. -/
inductive FetchResult where
  | resp (r : Response)
  | timeout
  | reqError
  | interrupt
deriving DecidableEq, Repr

/-- How one iteration of the `scrape_sites` loop ends: fall through to the
next item, `break` out of the loop, or propagate `KeyboardInterrupt`. -/
inductive Control where
  | next
  | brk
  | intr
deriving DecidableEq, Repr

/-- The loop-carried state of `scrape_sites`: the `session` variable
(holding the id of the live session, if any), a counter producing fresh
session ids, and the artifact store. -/
structure StepState where
  session : Option Nat
  nextSid : Nat
  fs : FS
deriving DecidableEq, Repr

/-- What one iteration of the `scrape_sites` loop produces. -/
structure StepResult where
  state : StepState
  events : List Ev
  yielded : Option ResponseResult
  control : Control
deriving DecidableEq, Repr

/-- The `finally` clause of the loop body: close and null the session
only when it is live and the item's sleep time is at least the
session-reuse threshold. -/
def finallyClose (msi st : ℚ) (sess : Option Nat) : Option Nat × List Ev :=
  match sess with
  | some sid => if st ≥ msi then (none, [Ev.closeS sid]) else (some sid, [])
  | none => (none, [])

/-- `closeS` events for whatever session is live. -/
def closeEvs : Option Nat → List Ev
  | some sid => [Ev.closeS sid]
  | none => []

/-- The connection-strategy decision at the top of the `try` block: when
`st < msi` reuse the session, opening one lazily if absent; otherwise
close and null any live session for a one-shot request.  Returns the
session after the decision, the open/close events, and the fresh-id
counter. -/
def connDecision (msi st : ℚ) (sess : Option Nat) (nextSid : Nat) :
    Option Nat × List Ev × Nat :=
  if st < msi then
    match sess with
    | none => (some nextSid, [Ev.openS nextSid st], nextSid + 1)
    | some sid => (some sid, [], nextSid)
  else
    (none, closeEvs sess, nextSid)

/-- The classification of one fetched item: a returned response goes
through `process_response`; `Timeout` and other `RequestException`s are
caught by the loop's handlers and yield an `"error"` result directly
(with no sleep and no write); on `KeyboardInterrupt` nothing is
classified (the placeholder result is never yielded, see `scrapeStep`). -/
def classifyFetch (fr : FetchResult) (site : Str) (st : ℚ) (ts : Str)
    (ioF : Bool) (fs : FS) : ResponseResult × FS × List Ev :=
  match fr with
  | FetchResult.resp r => process_response r site st ts ioF fs
  | FetchResult.timeout => (⟨"error", site, st, false⟩, fs, [])
  | FetchResult.reqError => (⟨"error", site, st, false⟩, fs, [])
  | FetchResult.interrupt => (⟨"interrupted", site, st, false⟩, fs, [])

/-- One iteration of the `scrape_sites` loop body for item `i = (site, st)`:
resume-filter check; connection-strategy decision; the fetch (`fr` is
what the network does, with `KeyboardInterrupt` modelled as arriving
during the request); classification; and the `finally` cleanup.  The
iteration ends with `break` when the classification says `"break"`, with
a propagating `KeyboardInterrupt`, or falls through yielding the
result. -/
def scrapeStep (skipSites : List Str) (msi : ℚ) (i : Nat) (site : Str) (st : ℚ)
    (fr : FetchResult) (ioF : Bool) (ts : Str) (s : StepState) : StepResult :=
  let unquoted_name := unquote (lastSeg site)
  if unquoted_name ∈ skipSites then
    { state := s, events := [Ev.skipEv i site], yielded := none, control := Control.next }
  else
    let encoded_site := pyQuote site
    let conn := connDecision msi st s.session s.nextSid
    let fetchEv := Ev.fetch i encoded_site conn.1.isSome
    let body := classifyFetch fr site st ts ioF s.fs
    let fin := finallyClose msi st conn.1
    let ctrl :=
      match fr with
      | FetchResult.interrupt => Control.intr
      | FetchResult.resp _ =>
        if body.1.action = "break" then Control.brk else Control.next
      | _ => Control.next
    { state := { session := fin.1, nextSid := conn.2.2, fs := body.2.1 },
      events := conn.2.1 ++ [fetchEv] ++ body.2.2 ++ fin.2,
      yielded := if ctrl = Control.next then some body.1 else none,
      control := ctrl }

/-- The whole run of `scrape_sites`, observed eagerly. -/
structure ScrapeResult where
  outcomes : List ResponseResult
  events : List Ev
  fs : FS
  interrupted : Bool
deriving DecidableEq, Repr

/-- The `for` loop of `scrape_sites` over the remaining `(site, time)`
pairs, starting at batch position `i`.  On normal exhaustion and on
`break`, any live session is closed after the loop; on
`KeyboardInterrupt`, the handler closes any live session and re-raises. -/
def scrapeLoop (skipSites : List Str) (msi : ℚ) (oracle : Nat → FetchResult)
    (ioF : Nat → Bool) (ts : Nat → Str) :
    List (Str × ℚ) → Nat → StepState → ScrapeResult
  | [], _, s =>
    { outcomes := [], events := closeEvs s.session, fs := s.fs, interrupted := false }
  | (site, st) :: rest, i, s =>
    let r := scrapeStep skipSites msi i site st (oracle i) (ioF i) (ts i) s
    match r.control with
    | Control.intr =>
      { outcomes := r.yielded.toList,
        events := r.events ++ closeEvs r.state.session,
        fs := r.state.fs, interrupted := true }
    | Control.brk =>
      { outcomes := r.yielded.toList,
        events := r.events ++ closeEvs r.state.session,
        fs := r.state.fs, interrupted := false }
    | Control.next =>
      let tail := scrapeLoop skipSites msi oracle ioF ts rest (i + 1) r.state
      { outcomes := r.yielded.toList ++ tail.outcomes,
        events := r.events ++ tail.events,
        fs := tail.fs, interrupted := tail.interrupted }

/-- The resume set: `os.listdir("../grammar_pages")` with each filename
cut at its first dot. -/
def resumeSet (fs : FS) : List Str := (fsList fs).map splitDot

/-- `scrape_sites(sites, times, min_session_interval)`: compute the
resume set once from the store at batch start, then run the loop over
`zip(sites, times)` with no session and the store as found. -/
def scrape_sites (sites : List Str) (times : List ℚ) (min_session_interval : ℚ)
    (oracle : Nat → FetchResult) (ioF : Nat → Bool) (ts : Nat → Str)
    (fs0 : FS) : ScrapeResult :=
  scrapeLoop (resumeSet fs0) min_session_interval oracle ioF ts
    (sites.zip times) 0 ⟨none, 0, fs0⟩

/-- Project an event onto the session alphabet: `some (true, sid)` for an
open, `some (false, sid)` for a close, `none` otherwise. -/
def sessEv : Ev → Option (Bool × Nat)
  | Ev.openS sid _ => some (true, sid)
  | Ev.closeS sid => some (false, sid)
  | _ => none

/-- The open/close subtrace of an event trace. -/
def sessTrace (evs : List Ev) : List (Bool × Nat) := evs.filterMap sessEv

/-- Session discipline checker: starting from the given live session (if
any), opens and closes must strictly alternate — so at most one session
is live at any point — every close must name the live session, and at the
end of the trace no session may remain live. -/
def sdAux : Option Nat → List (Bool × Nat) → Bool
  | none, [] => true
  | some _, [] => false
  | none, (true, sid) :: r => sdAux (some sid) r
  | none, (false, _) :: _ => false
  | some sid, (false, sid') :: r => if sid = sid' then sdAux none r else false
  | some _, (true, _) :: _ => false

/-- The slack-distribution loop keeps the length, never decreases a slot,
and adds at most `remaining` to the total, provided every draw fraction
lies in `[0,1]` and the slot index plus the remaining slot count equals
`n`. -/
theorem allocGo_spec (u : Nat → ℚ) (hu : ∀ j, 0 ≤ u j ∧ u j ≤ 1) (n : Nat) :
    ∀ (l : List ℚ) (i : Nat) (rem : ℚ), i + l.length = n → 0 ≤ rem →
      (allocGo u n i rem l).length = l.length ∧
      List.Forall₂ (· ≤ ·) l (allocGo u n i rem l) ∧
      (allocGo u n i rem l).sum ≤ l.sum + rem := by
  intro l
  induction l with
  | nil =>
    intro i rem _ hrem
    refine ⟨rfl, List.Forall₂.nil, ?_⟩
    simp [allocGo]
    linarith
  | cons x rest ih =>
    intro i rem hn hrem
    by_cases hr : rem ≤ 0
    · rw [show allocGo u n i rem (x :: rest) = x :: rest by simp [allocGo, hr]]
      exact ⟨rfl, List.forall₂_same.mpr fun y _ => le_refl y, by linarith⟩
    · push_neg at hr
      have hn' : i + (rest.length + 1) = n := by simpa using hn
      have hk : (n : ℚ) - (i : ℚ) = ((rest.length : ℚ) + 1) := by
        have : (i : ℚ) + ((rest.length : ℚ) + 1) = (n : ℚ) := by
          push_cast [← hn']
          ring
        linarith
      have hk1 : (1 : ℚ) ≤ (n : ℚ) - (i : ℚ) := by
        rw [hk]
        have : (0 : ℚ) ≤ (rest.length : ℚ) := Nat.cast_nonneg _
        linarith
      have hdiv : 0 ≤ rem / ((n : ℚ) - (i : ℚ)) := div_nonneg hr.le (by linarith)
      have hadd0 : 0 ≤ u i * (rem / ((n : ℚ) - (i : ℚ))) := mul_nonneg (hu i).1 hdiv
      have haddle : u i * (rem / ((n : ℚ) - (i : ℚ))) ≤ rem := by
        have h1 : u i * (rem / ((n : ℚ) - (i : ℚ))) ≤ rem / ((n : ℚ) - (i : ℚ)) :=
          mul_le_of_le_one_left hdiv (hu i).2
        have h2 : rem / ((n : ℚ) - (i : ℚ)) ≤ rem := div_le_self hr.le hk1
        linarith
      have heq : allocGo u n i rem (x :: rest) =
          (x + u i * (rem / ((n : ℚ) - (i : ℚ)))) ::
            allocGo u n (i + 1) (rem - u i * (rem / ((n : ℚ) - (i : ℚ)))) rest := by
        simp [allocGo, not_le.mpr hr]
      obtain ⟨hl, hf, hs⟩ :=
        ih (i + 1) (rem - u i * (rem / ((n : ℚ) - (i : ℚ))))
          (by omega) (by linarith)
      rw [heq]
      refine ⟨by simp [hl], List.Forall₂.cons (by linarith) hf, ?_⟩
      simp only [List.sum_cons]
      linarith

/-- `List.sum` after `List.set`, over `ℚ`. -/
theorem sum_set_rat (l : List ℚ) :
    ∀ (i : Nat) (b : ℚ), (hi : i < l.length) →
      (l.set i b).sum = l.sum - l[i] + b := by
  induction l with
  | nil => intro i b hi; simp at hi
  | cons x rest ih =>
    intro i b hi
    cases i with
    | zero => simp [List.set]; ring
    | succ k =>
      have hk : k < rest.length := by simpa using hi
      simp only [List.set, List.sum_cons, ih k b hk, List.getElem_cons_succ]
      ring

/-- `listSwap` keeps the length. -/
theorem listSwap_length (l : List ℚ) (i j : Nat) :
    (listSwap l i j).length = l.length := by
  unfold listSwap
  cases h1 : l.get? i <;> cases h2 : l.get? j <;> simp [List.length_set]

/-- Every element of a swapped list is an element of the original. -/
theorem listSwap_subset (l : List ℚ) (i j : Nat) (x : ℚ) :
    x ∈ listSwap l i j → x ∈ l := by
  unfold listSwap
  cases h1 : l.get? i with
  | none => cases h2 : l.get? j <;> exact fun h => h
  | some a =>
    cases h2 : l.get? j with
    | none => exact fun h => h
    | some b =>
      intro hx
      rcases List.mem_or_eq_of_mem_set hx with hx' | rfl
      · rcases List.mem_or_eq_of_mem_set hx' with hx'' | rfl
        · exact hx''
        · exact List.get?_mem h2
      · exact List.get?_mem h1

/-- `listSwap` keeps the sum. -/
theorem listSwap_sum (l : List ℚ) (i j : Nat) :
    (listSwap l i j).sum = l.sum := by
  unfold listSwap
  cases h1 : l.get? i with
  | none => cases h2 : l.get? j <;> rfl
  | some a =>
    cases h2 : l.get? j with
    | none => rfl
    | some b =>
      rw [List.get?_eq_some] at h1 h2
      obtain ⟨hi, hia⟩ := h1
      obtain ⟨hj, hjb⟩ := h2
      simp only [List.get_eq_getElem] at hia hjb
      have hj' : j < (l.set i b).length := by simpa using hj
      rw [sum_set_rat _ j a hj', sum_set_rat _ i b hi]
      by_cases hij : i = j
      · subst hij
        rw [List.getElem_set_self (by simpa using hi)]
        rw [hia] at hjb
        subst hjb
        rw [hia]
        ring
      · rw [List.getElem_set_ne hij _, hia, hjb]
        ring

/-- The Fisher–Yates loop keeps length, membership and sum. -/
theorem fyAux_spec (js : Nat → Nat) :
    ∀ (k : Nat) (l : List ℚ),
      (fyAux js k l).length = l.length ∧
      (∀ x ∈ fyAux js k l, x ∈ l) ∧
      (fyAux js k l).sum = l.sum := by
  intro k
  induction k with
  | zero => intro l; exact ⟨rfl, fun x hx => hx, rfl⟩
  | succ m ih =>
    intro l
    obtain ⟨h1, h2, h3⟩ := ih (listSwap l (m + 1) (js (m + 1) % (m + 2)))
    refine ⟨?_, ?_, ?_⟩
    · rw [fyAux, h1, listSwap_length]
    · intro x hx
      rw [fyAux] at hx
      exact listSwap_subset _ _ _ _ (h2 x hx)
    · rw [fyAux, h3, listSwap_sum]

/-- `pyShuffle` keeps length, membership and sum. -/
theorem pyShuffle_spec (js : Nat → Nat) (l : List ℚ) :
    (pyShuffle js l).length = l.length ∧
    (∀ x ∈ pyShuffle js l, x ∈ l) ∧
    (pyShuffle js l).sum = l.sum :=
  fyAux_spec js (l.length - 1) l

/-- C3: for every `(minDelay, maxTotal, count)` with
`count * minDelay ≤ maxTotal`, the Sleep Budget Allocator
`gen_random_sleeps` succeeds and returns a sequence of exactly `count`
durations, each `≥ minDelay`, whose sum is `≤ maxTotal` (for any values
of the random draws: `u` are the `random.uniform` fractions in `[0,1]`,
`js` the `random.shuffle` index draws). -/
theorem gen_random_sleeps_valid_budget (min_sleep max_total : ℚ) (n : Nat)
    (u : Nat → ℚ) (js : Nat → Nat)
    (hbudget : (n : ℚ) * min_sleep ≤ max_total)
    (hu : ∀ j, 0 ≤ u j ∧ u j ≤ 1) :
    ∃ l, gen_random_sleeps min_sleep max_total n u js = Except.ok l ∧
      l.length = n ∧ (∀ x ∈ l, min_sleep ≤ x) ∧ l.sum ≤ max_total := by
  obtain ⟨hlen, hfor, hsum⟩ :=
    allocGo_spec u hu n (List.replicate n min_sleep) 0
      (max_total - (n : ℚ) * min_sleep) (by simp) (by linarith)
  have hlen' :
      (allocGo u n 0 (max_total - (n : ℚ) * min_sleep)
        (List.replicate n min_sleep)).length = n := by
    rw [hlen, List.length_replicate]
  obtain ⟨hslen, hsmem, hssum⟩ :=
    pyShuffle_spec js
      (allocGo u n 0 (max_total - (n : ℚ) * min_sleep) (List.replicate n min_sleep))
  refine ⟨pyShuffle js
      (allocGo u n 0 (max_total - (n : ℚ) * min_sleep) (List.replicate n min_sleep)),
    ?_, ?_, ?_, ?_⟩
  · simp only [gen_random_sleeps]
    rw [if_neg (not_lt.mpr hbudget), if_neg (by simp [hlen'])]
  · rw [hslen, hlen']
  · intro x hx
    have hxmem := hsmem x hx
    obtain ⟨k, hk, rfl⟩ := List.mem_iff_getElem.mp hxmem
    obtain ⟨hlen2, hget⟩ := List.forall₂_iff_get.mp hfor
    have hk' : k < (List.replicate n min_sleep).length := by rw [hlen2]; exact hk
    have := hget k hk' hk
    simpa [List.get_eq_getElem, List.getElem_replicate] using this
  · rw [hssum]
    have hrepl : (List.replicate n min_sleep).sum = (n : ℚ) * min_sleep := by
      rw [List.sum_replicate, nsmul_eq_mul]
    rw [hrepl] at hsum
    linarith

/-- C3 witness: a concrete valid budget `(1, 10, 3)` with draw fractions
`1/2` and trivial shuffle draws. -/
theorem gen_random_sleeps_valid_budget_witness :
    ∃ l, gen_random_sleeps 1 10 3 (fun _ => 1/2) (fun _ => 0) = Except.ok l ∧
      l.length = 3 ∧ (∀ x ∈ l, (1 : ℚ) ≤ x) ∧ l.sum ≤ 10 :=
  gen_random_sleeps_valid_budget 1 10 3 (fun _ => 1/2) (fun _ => 0)
    (by norm_num) (fun j => by norm_num)

/-- C4: when `count * minDelay > maxTotal`, `gen_random_sleeps` raises
`ValueError` before doing anything else: no schedule is produced. -/
theorem gen_random_sleeps_invalid_budget (min_sleep max_total : ℚ) (n : Nat)
    (u : Nat → ℚ) (js : Nat → Nat)
    (hbudget : (n : ℚ) * min_sleep > max_total) :
    gen_random_sleeps min_sleep max_total n u js =
      Except.error
        "Minimum sleep times number of requests exceed the maximum total time." := by
  simp only [gen_random_sleeps]
  rw [if_pos hbudget]

/-- `process_response` can never return the `"break"` action: the
`status_code == 429` test sits after `raise_for_status()`, which already
raised `HTTPError` for every status in `[400, 600)` — 429 included — so
the rate-limit branch is unreachable. -/
theorem process_response_never_break (r : Response) (site : Str) (st : ℚ)
    (ts : Str) (ioF : Bool) (fs : FS) :
    (process_response r site st ts ioF fs).1.action ≠ "break" := by
  unfold process_response raise_for_status
  by_cases h : 400 ≤ r.status_code ∧ r.status_code < 600
  · rw [if_pos h]
    simp
  · rw [if_neg h]
    have h429 : ¬ r.status_code = 429 := by
      intro he
      exact h (by rw [he]; omega)
    rw [if_neg h429]
    simp

/-- C1 (the code contradicts the claim): a response with status 429 is
classified `action = "error"` with `scraped = false` and no side effects,
exactly like any other HTTP error — not `"break"`/HARD_STOP.
`raise_for_status()` raises `HTTPError` for all of 4xx/5xx including 429
before the dedicated rate-limit branch is reached, so `scrape_sites`
treats a 429 as a per-item retryable error and keeps fetching. -/
theorem process_response_429_is_error (r : Response) (site : Str) (st : ℚ)
    (ts : Str) (ioF : Bool) (fs : FS) (h : r.status_code = 429) :
    (process_response r site st ts ioF fs).1 =
      ⟨"error", site, st, false⟩ ∧
    (process_response r site st ts ioF fs).2.2 = [] := by
  unfold process_response raise_for_status
  rw [if_pos (by rw [h]; omega : 400 ≤ r.status_code ∧ r.status_code < 600)]
  exact ⟨rfl, rfl⟩

/-- C1 witness: a concrete 429 response. -/
theorem process_response_429_is_error_witness :
    (process_response ⟨429, "x".toList⟩ "/a".toList 2 "T".toList false []).1 =
      ⟨"error", "/a".toList, 2, false⟩ ∧
    (process_response ⟨429, "x".toList⟩ "/a".toList 2 "T".toList false []).2.2 = [] :=
  process_response_429_is_error ⟨429, "x".toList⟩ "/a".toList 2 "T".toList false [] rfl

/-- C2 (the code contradicts the claim): in a batch of 5 targets where
target 3 answers 429 and the rest 200, the executor yields five
outcomes — target 3 classified `"error"` — and still issues network
calls (fetch events) for targets 4 and 5.  The claimed short-circuit
(exactly 3 outcomes, no fetch for items 4–5) does not happen, because a
429 never produces the `"break"` action (see
`process_response_never_break`), and even the dead `"break"` branch
would exit the loop before yielding the terminal outcome. -/
theorem scrape_sites_429_no_short_circuit :
    (scrape_sites ["/a".toList, "/b".toList, "/c".toList, "/d".toList, "/e".toList]
        [2, 2, 2, 2, 2] 1
        (fun i => if i = 2 then FetchResult.resp ⟨429, "x".toList⟩
                  else FetchResult.resp ⟨200, "x".toList⟩)
        (fun _ => false) (fun _ => "T".toList) []).outcomes.map
          (fun o => o.action) =
      ["scrape", "scrape", "error", "scrape", "scrape"] ∧
    Ev.fetch 3 "/d".toList false ∈
      (scrape_sites ["/a".toList, "/b".toList, "/c".toList, "/d".toList, "/e".toList]
        [2, 2, 2, 2, 2] 1
        (fun i => if i = 2 then FetchResult.resp ⟨429, "x".toList⟩
                  else FetchResult.resp ⟨200, "x".toList⟩)
        (fun _ => false) (fun _ => "T".toList) []).events ∧
    Ev.fetch 4 "/e".toList false ∈
      (scrape_sites ["/a".toList, "/b".toList, "/c".toList, "/d".toList, "/e".toList]
        [2, 2, 2, 2, 2] 1
        (fun i => if i = 2 then FetchResult.resp ⟨429, "x".toList⟩
                  else FetchResult.resp ⟨200, "x".toList⟩)
        (fun _ => false) (fun _ => "T".toList) []).events := by
  refine ⟨by decide, by decide, by decide⟩

/-- Events of `closeEvs` are close events of the live session. -/
theorem closeEvs_shape (sess : Option Nat) (e : Ev) (he : e ∈ closeEvs sess) :
    ∃ sid, e = Ev.closeS sid ∧ sess = some sid := by
  cases sess with
  | none => simp [closeEvs] at he
  | some sid =>
    simp [closeEvs] at he
    exact ⟨sid, he, rfl⟩

/-- Events of the connection decision: an open only when no session was
live and the delay is below the threshold (lazy open, with the fresh id),
or a close of the live session only when the delay is at or above the
threshold. -/
theorem connDecision_shape (msi st : ℚ) (sess : Option Nat) (nextSid : Nat)
    (e : Ev) (he : e ∈ (connDecision msi st sess nextSid).2.1) :
    (e = Ev.openS nextSid st ∧ sess = none ∧ st < msi) ∨
    (∃ sid, e = Ev.closeS sid ∧ sess = some sid ∧ ¬ st < msi) := by
  by_cases h : st < msi
  · cases sess with
    | none =>
      simp [connDecision, if_pos h] at he
      exact Or.inl ⟨he, rfl, h⟩
    | some sid => simp [connDecision, if_pos h] at he
  · rw [connDecision.eq_def, if_neg h] at he
    obtain ⟨sid, he', hs⟩ := closeEvs_shape sess e he
    exact Or.inr ⟨sid, he', hs, h⟩

/-- Events of the `finally` clause are closes of the live session, and
only fire when the delay is at or above the threshold. -/
theorem finallyClose_shape (msi st : ℚ) (sess : Option Nat) (e : Ev)
    (he : e ∈ (finallyClose msi st sess).2) :
    ∃ sid, e = Ev.closeS sid ∧ sess = some sid ∧ st ≥ msi := by
  cases sess with
  | none => simp [finallyClose] at he
  | some sid =>
    by_cases h : st ≥ msi
    · simp [finallyClose, if_pos h] at he
      exact ⟨sid, he, rfl, h⟩
    · simp [finallyClose, if_neg h] at he

/-- Events of the persistence sink are writes or write failures. -/
theorem save_source_code_shape (text site ts : Str) (io : Bool) (fs : FS)
    (e : Ev) (he : e ∈ (save_source_code text site ts io fs).2) :
    (∃ n c, e = Ev.writeEv n c) ∨ (∃ n, e = Ev.writeFailEv n) := by
  unfold save_source_code at he
  by_cases hio : io
  · simp [hio] at he
    exact Or.inr ⟨_, he⟩
  · simp [hio] at he
    exact Or.inl ⟨_, _, he⟩

/-- Events of the outcome classifier are the politeness sleep (of exactly
the assigned delay) or persistence events. -/
theorem process_response_shape (r : Response) (site : Str) (st : ℚ)
    (ts : Str) (io : Bool) (fs : FS) (e : Ev)
    (he : e ∈ (process_response r site st ts io fs).2.2) :
    e = Ev.sleepEv st ∨ (∃ n c, e = Ev.writeEv n c) ∨ (∃ n, e = Ev.writeFailEv n) := by
  unfold process_response at he
  by_cases h : 400 ≤ r.status_code ∧ r.status_code < 600
  · simp [raise_for_status, if_pos h] at he
  · by_cases h429 : r.status_code = 429
    · simp [raise_for_status, if_neg h, h429] at he
    · simp only [raise_for_status, if_neg h, if_neg h429, List.mem_cons] at he
      rcases he with rfl | he
      · exact Or.inl rfl
      · exact Or.inr (save_source_code_shape _ _ _ _ _ _ he)

/-- Same classification for `classifyFetch`; moreover a transport error
produces no events at all. -/
theorem classifyFetch_shape (fr : FetchResult) (site : Str) (st : ℚ)
    (ts : Str) (io : Bool) (fs : FS) (e : Ev)
    (he : e ∈ (classifyFetch fr site st ts io fs).2.2) :
    e = Ev.sleepEv st ∨ (∃ n c, e = Ev.writeEv n c) ∨ (∃ n, e = Ev.writeFailEv n) := by
  cases fr with
  | resp r => exact process_response_shape r site st ts io fs e he
  | timeout => simp [classifyFetch] at he
  | reqError => simp [classifyFetch] at he
  | interrupt => simp [classifyFetch] at he

/-- A skipped item: the step leaves the state untouched, emits only the
skip event, yields nothing, and continues. -/
theorem scrapeStep_skipped (skipSites : List Str) (msi : ℚ) (i : Nat)
    (site : Str) (st : ℚ) (fr : FetchResult) (ioF : Bool) (ts : Str)
    (s : StepState) (hmem : unquote (lastSeg site) ∈ skipSites) :
    scrapeStep skipSites msi i site st fr ioF ts s =
      { state := s, events := [Ev.skipEv i site], yielded := none,
        control := Control.next } := by
  unfold scrapeStep
  rw [if_pos hmem]

/-- A non-skipped item: the step's full characterization in terms of the
connection decision, the fetch, the classification and the `finally`
cleanup. -/
theorem scrapeStep_not_skipped (skipSites : List Str) (msi : ℚ) (i : Nat)
    (site : Str) (st : ℚ) (fr : FetchResult) (ioF : Bool) (ts : Str)
    (s : StepState) (hnm : unquote (lastSeg site) ∉ skipSites) :
    scrapeStep skipSites msi i site st fr ioF ts s =
      { state := { session := (finallyClose msi st (connDecision msi st s.session s.nextSid).1).1,
                   nextSid := (connDecision msi st s.session s.nextSid).2.2,
                   fs := (classifyFetch fr site st ts ioF s.fs).2.1 },
        events := (connDecision msi st s.session s.nextSid).2.1 ++
          [Ev.fetch i (pyQuote site) (connDecision msi st s.session s.nextSid).1.isSome] ++
          (classifyFetch fr site st ts ioF s.fs).2.2 ++
          (finallyClose msi st (connDecision msi st s.session s.nextSid).1).2,
        yielded :=
          if (match fr with
              | FetchResult.interrupt => Control.intr
              | FetchResult.resp _ =>
                if (classifyFetch fr site st ts ioF s.fs).1.action = "break" then
                  Control.brk
                else Control.next
              | _ => Control.next) = Control.next then
            some (classifyFetch fr site st ts ioF s.fs).1
          else none,
        control :=
          match fr with
          | FetchResult.interrupt => Control.intr
          | FetchResult.resp _ =>
            if (classifyFetch fr site st ts ioF s.fs).1.action = "break" then
              Control.brk
            else Control.next
          | _ => Control.next } := by
  unfold scrapeStep
  rw [if_neg hnm]

/-- On a successful status (outside `[400, 600)`), `process_response`
sleeps the assigned delay, then persists, and returns
`("scrape", scraped := True)`. -/
theorem process_response_success (r : Response) (site : Str) (st : ℚ)
    (ts : Str) (io : Bool) (fs : FS)
    (h : ¬ (400 ≤ r.status_code ∧ r.status_code < 600)) :
    process_response r site st ts io fs =
      (⟨"scrape", site, st, true⟩,
       (save_source_code (prettify r.text) site ts io fs).1,
       Ev.sleepEv st :: (save_source_code (prettify r.text) site ts io fs).2) := by
  have h429 : ¬ r.status_code = 429 := by
    intro he
    exact h (by rw [he]; omega)
  unfold process_response raise_for_status
  rw [if_neg h, if_neg h429]

/-- C5: the politeness delay is charged on success only.  On a successful
status the classifier blocks for exactly the assigned delay before the
persistence events (and before returning), and returns
`action = "scrape"`, `scraped = true`; on an HTTP error status it
returns `scraped = false` with no events at all; on a transport error the
executor yields `scraped = false` and no sleep event occurs in the whole
iteration. -/
theorem politeness_delay_on_success_only
    (r : Response) (site : Str) (st : ℚ) (ts : Str) (ioF : Bool) (fs : FS)
    (skipSites : List Str) (msi : ℚ) (i : Nat) (s : StepState) :
    (¬ (400 ≤ r.status_code ∧ r.status_code < 600) →
      (process_response r site st ts ioF fs).1 = ⟨"scrape", site, st, true⟩ ∧
      (process_response r site st ts ioF fs).2.2 =
        Ev.sleepEv st :: (save_source_code (prettify r.text) site ts ioF fs).2 ∧
      ∀ e ∈ (save_source_code (prettify r.text) site ts ioF fs).2,
        ∀ d, ¬ e = Ev.sleepEv d) ∧
    ((400 ≤ r.status_code ∧ r.status_code < 600) →
      (process_response r site st ts ioF fs).1 = ⟨"error", site, st, false⟩ ∧
      (process_response r site st ts ioF fs).2.2 = []) ∧
    (unquote (lastSeg site) ∉ skipSites →
      ∀ fr, (fr = FetchResult.timeout ∨ fr = FetchResult.reqError) →
        (scrapeStep skipSites msi i site st fr ioF ts s).yielded =
          some ⟨"error", site, st, false⟩ ∧
        ∀ d, ¬ Ev.sleepEv d ∈ (scrapeStep skipSites msi i site st fr ioF ts s).events) := by
  refine ⟨?_, ?_, ?_⟩
  · intro h
    rw [process_response_success r site st ts ioF fs h]
    refine ⟨rfl, rfl, ?_⟩
    intro e he d
    rcases save_source_code_shape _ _ _ _ _ e he with ⟨n, c, rfl⟩ | ⟨n, rfl⟩ <;> simp
  · intro h
    unfold process_response raise_for_status
    rw [if_pos h]
    exact ⟨rfl, rfl⟩
  · intro hnm fr hfr
    rw [scrapeStep_not_skipped skipSites msi i site st fr ioF ts s hnm]
    rcases hfr with rfl | rfl <;>
      refine ⟨by simp [classifyFetch], ?_⟩ <;>
      · intro d hd
        simp only [List.mem_append, List.mem_singleton] at hd
        rcases hd with ((hc | hf) | hb) | hfin
        · rcases connDecision_shape _ _ _ _ _ hc with ⟨he, _, _⟩ | ⟨sid, he, _, _⟩ <;>
            simp at he
        · simp at hf
        · simp [classifyFetch] at hb
        · obtain ⟨sid, he, _, _⟩ := finallyClose_shape _ _ _ _ hfin
          simp at he

/-- C5 witness: a 200 response at delay 2 sleeps then writes; a 404
response produces no events; a timeout in the executor yields the error
outcome with no sleep. -/
theorem politeness_delay_on_success_only_witness :
    ((¬ (400 ≤ (200 : Nat) ∧ (200 : Nat) < 600)) ∧
      (process_response ⟨200, "x".toList⟩ "/a".toList 2 "T".toList false []).1 =
        ⟨"scrape", "/a".toList, 2, true⟩ ∧
      (process_response ⟨200, "x".toList⟩ "/a".toList 2 "T".toList false []).2.2 =
        Ev.sleepEv 2 ::
          (save_source_code (prettify "x".toList) "/a".toList "T".toList false []).2) ∧
    (process_response ⟨404, "x".toList⟩ "/a".toList 2 "T".toList false []).2.2 = [] ∧
    (scrapeStep [] 30 0 "/a".toList 2 FetchResult.timeout false "T".toList
        ⟨none, 0, []⟩).yielded = some ⟨"error", "/a".toList, 2, false⟩ := by
  have h200 : ¬ (400 ≤ (200 : Nat) ∧ (200 : Nat) < 600) := by omega
  obtain ⟨hs, he, ht⟩ :=
    politeness_delay_on_success_only ⟨200, "x".toList⟩ "/a".toList 2 "T".toList false []
      [] 30 0 ⟨none, 0, []⟩
  refine ⟨⟨h200, (hs h200).1, (hs h200).2.1⟩, ?_, ?_⟩
  · exact (politeness_delay_on_success_only ⟨404, "x".toList⟩ "/a".toList 2 "T".toList
      false [] [] 30 0 ⟨none, 0, []⟩).2.1 (by decide) |>.2
  · exact (politeness_delay_on_success_only ⟨200, "x".toList⟩ "/a".toList 2 "T".toList
      false [] [] 30 0 ⟨none, 0, []⟩).2.2 (by simp)
      FetchResult.timeout (Or.inl rfl) |>.1

/-- C9: when the artifact write fails with an I/O error after a
successful fetch, the failure is only logged: the classification is
still `action = "scrape"`, `scraped = true`, the store is unchanged, and
the executor yields that outcome and continues to the next target. -/
theorem persistence_failure_keeps_outcome
    (r : Response) (site : Str) (st : ℚ) (ts : Str) (fs : FS)
    (skipSites : List Str) (msi : ℚ) (i : Nat) (s : StepState)
    (h : ¬ (400 ≤ r.status_code ∧ r.status_code < 600)) :
    (process_response r site st ts true fs).1 = ⟨"scrape", site, st, true⟩ ∧
    (process_response r site st ts true fs).2.1 = fs ∧
    (∃ n, Ev.writeFailEv n ∈ (process_response r site st ts true fs).2.2) ∧
    (unquote (lastSeg site) ∉ skipSites →
      (scrapeStep skipSites msi i site st (FetchResult.resp r) true ts
          { session := s.session, nextSid := s.nextSid, fs := fs }).yielded =
        some ⟨"scrape", site, st, true⟩ ∧
      (scrapeStep skipSites msi i site st (FetchResult.resp r) true ts
          { session := s.session, nextSid := s.nextSid, fs := fs }).control =
        Control.next) := by
  have hpr := process_response_success r site st ts true fs h
  refine ⟨by rw [hpr], ?_, ?_, ?_⟩
  · rw [hpr]
    simp [save_source_code]
  · have hex : ∃ n, Ev.writeFailEv n ∈ (save_source_code (prettify r.text) site ts true fs).2 := by
      simp [save_source_code]
    obtain ⟨n, hn⟩ := hex
    exact ⟨n, by rw [hpr]; exact List.mem_cons_of_mem _ hn⟩
  · intro hnm
    rw [scrapeStep_not_skipped skipSites msi i site st (FetchResult.resp r) true ts
      { session := s.session, nextSid := s.nextSid, fs := fs } hnm]
    simp only [classifyFetch, hpr]
    constructor
    · simp
    · simp

/-- C9 witness: a 200 response whose write fails. -/
theorem persistence_failure_keeps_outcome_witness :
    (process_response ⟨200, "x".toList⟩ "/a".toList 2 "T".toList true []).1 =
      ⟨"scrape", "/a".toList, 2, true⟩ ∧
    (process_response ⟨200, "x".toList⟩ "/a".toList 2 "T".toList true []).2.1 = [] ∧
    (∃ n, Ev.writeFailEv n ∈
      (process_response ⟨200, "x".toList⟩ "/a".toList 2 "T".toList true []).2.2) ∧
    (unquote (lastSeg "/a".toList) ∉ ([] : List Str) →
      (scrapeStep [] 30 0 "/a".toList 2
          (FetchResult.resp ⟨200, "x".toList⟩) true "T".toList
          { session := none, nextSid := 0, fs := [] }).yielded =
        some ⟨"scrape", "/a".toList, 2, true⟩ ∧
      (scrapeStep [] 30 0 "/a".toList 2
          (FetchResult.resp ⟨200, "x".toList⟩) true "T".toList
          { session := none, nextSid := 0, fs := [] }).control = Control.next) :=
  persistence_failure_keeps_outcome ⟨200, "x".toList⟩ "/a".toList 2 "T".toList []
    [] 30 0 ⟨none, 0, []⟩ (by decide)

/-- C4 witness: the concrete invalid budget `(4, 10, 3)`. -/
theorem gen_random_sleeps_invalid_budget_witness :
    gen_random_sleeps 4 10 3 (fun _ => 1/2) (fun _ => 0) =
      Except.error
        "Minimum sleep times number of requests exceed the maximum total time." :=
  gen_random_sleeps_invalid_budget 4 10 3 (fun _ => 1/2) (fun _ => 0) (by norm_num)

/-- C8 counterexample: when the timestamp-suffixed name itself already
exists in the store, `save_source_code` silently overwrites that file:
with `a.html` and `a.html_T.html` both present and timestamp `T`, the
pre-existing `a.html_T.html` (content `KEEP`) is replaced by the new
content. -/
theorem save_source_code_overwrites_suffixed_cex :
    fsLookup [("a.html".toList, "OLD".toList), ("a.html_T.html".toList, "KEEP".toList)]
        "a.html_T.html".toList = some "KEEP".toList ∧
    fsLookup ((save_source_code "NEW".toList "/a".toList "T".toList false
        [("a.html".toList, "OLD".toList), ("a.html_T.html".toList, "KEEP".toList)]).1)
        "a.html_T.html".toList = some "NEW".toList := by
  constructor
  · decide
  · decide

/-- C8 (amended): when the target filename already exists, the sink
writes under the distinct timestamp-suffixed name and the file at the
original target name is byte-identical before and after; (a file already
present under that same suffixed name, however, is overwritten — see the
counterexample). -/
theorem save_source_code_collision_safe (text site ts : Str) (fs : FS) (c : Str)
    (hexist : fsLookup fs (unquote (lastSeg site) ++ ".html".toList) = some c) :
    (save_source_code text site ts false fs).1 =
      fsWrite fs
        (unquote (lastSeg site) ++ ".html".toList ++ "_".toList ++ ts ++ ".html".toList)
        text ∧
    ¬ (unquote (lastSeg site) ++ ".html".toList ++ "_".toList ++ ts ++ ".html".toList) =
      (unquote (lastSeg site) ++ ".html".toList) ∧
    fsLookup (save_source_code text site ts false fs).1
      (unquote (lastSeg site) ++ ".html".toList) = some c ∧
    fsLookup (save_source_code text site ts false fs).1
      (unquote (lastSeg site) ++ ".html".toList ++ "_".toList ++ ts ++ ".html".toList) =
      some text := by
  have hne : ¬ (unquote (lastSeg site) ++ ".html".toList ++ "_".toList ++ ts ++
      ".html".toList) = (unquote (lastSeg site) ++ ".html".toList) := by
    intro heq
    have hlen := congrArg List.length heq
    simp [List.length_append] at hlen
  have hsave : (save_source_code text site ts false fs).1 =
      fsWrite fs
        (unquote (lastSeg site) ++ ".html".toList ++ "_".toList ++ ts ++ ".html".toList)
        text := by
    simp only [save_source_code, hexist]
    simp [List.append_assoc]
  refine ⟨hsave, hne, ?_, ?_⟩
  · rw [hsave]
    unfold fsWrite fsLookup
    rw [if_neg hne]
    exact hexist
  · rw [hsave]
    unfold fsWrite fsLookup
    rw [if_pos rfl]

/-- C8 witness: concrete collision where `a.html` already holds `OLD`. -/
theorem save_source_code_collision_safe_witness :
    (save_source_code "NEW".toList "/a".toList "T".toList false
        [("a.html".toList, "OLD".toList)]).1 =
      fsWrite [("a.html".toList, "OLD".toList)]
        (unquote (lastSeg "/a".toList) ++ ".html".toList ++ "_".toList ++ "T".toList ++
          ".html".toList) "NEW".toList ∧
    ¬ (unquote (lastSeg "/a".toList) ++ ".html".toList ++ "_".toList ++ "T".toList ++
        ".html".toList) = (unquote (lastSeg "/a".toList) ++ ".html".toList) ∧
    fsLookup (save_source_code "NEW".toList "/a".toList "T".toList false
        [("a.html".toList, "OLD".toList)]).1
      (unquote (lastSeg "/a".toList) ++ ".html".toList) = some "OLD".toList ∧
    fsLookup (save_source_code "NEW".toList "/a".toList "T".toList false
        [("a.html".toList, "OLD".toList)]).1
      (unquote (lastSeg "/a".toList) ++ ".html".toList ++ "_".toList ++ "T".toList ++
        ".html".toList) = some "NEW".toList :=
  save_source_code_collision_safe "NEW".toList "/a".toList "T".toList
    [("a.html".toList, "OLD".toList)] "OLD".toList (by decide)

/-- `pySplit` never returns the empty list of groups. -/
theorem pySplit_ne_nil (sep : Char) (s : Str) : ¬ pySplit sep s = [] := by
  induction s with
  | nil => simp [pySplit]
  | cons c rest ih =>
    simp only [pySplit]
    by_cases h : c = sep
    · simp [h]
    · rw [if_neg h]
      cases hg : pySplit sep rest with
      | nil => simp
      | cons g gs => simp

/-- The first `split(".")` group is the prefix of the string before its
first dot. -/
theorem splitDot_eq_takeWhile (s : Str) :
    splitDot s = s.takeWhile (fun c => c != '.') := by
  induction s with
  | nil => rfl
  | cons c rest ih =>
    simp only [splitDot, pySplit] at ih ⊢
    by_cases h : c = '.'
    · subst h
      rw [if_pos rfl]
      simp [List.takeWhile]
    · rw [if_neg h]
      cases hg : pySplit '.' rest with
      | nil => exact absurd hg (pySplit_ne_nil '.' rest)
      | cons g gs =>
        rw [hg] at ih
        simp only [List.headD_cons] at ih
        have hc : (c != '.') = true := bne_iff_ne.mpr h
        simp [List.takeWhile, hc, ← ih]

/-- Skip events of one step: exactly one, with the step's index and raw
URL, and only when the decoded trailing segment is in the skip set. -/
theorem scrapeStep_skipEv_iff (skipSites : List Str) (msi : ℚ) (i : Nat)
    (site : Str) (st : ℚ) (fr : FetchResult) (ioF : Bool) (ts : Str)
    (s : StepState) (j : Nat) (x : Str) :
    Ev.skipEv j x ∈ (scrapeStep skipSites msi i site st fr ioF ts s).events ↔
      (j = i ∧ x = site ∧ unquote (lastSeg site) ∈ skipSites) := by
  by_cases hm : unquote (lastSeg site) ∈ skipSites
  · rw [scrapeStep_skipped skipSites msi i site st fr ioF ts s hm]
    simp [hm, eq_comm]
  · rw [scrapeStep_not_skipped skipSites msi i site st fr ioF ts s hm]
    constructor
    · intro hmem
      exfalso
      simp only [List.mem_append, List.mem_singleton] at hmem
      rcases hmem with ((hc | hf) | hb) | hfin
      · rcases connDecision_shape _ _ _ _ _ hc with ⟨he, _, _⟩ | ⟨sid, he, _, _⟩ <;>
          simp at he
      · simp at hf
      · rcases classifyFetch_shape _ _ _ _ _ _ _ hb with he | ⟨n, c, he⟩ | ⟨n, he⟩ <;>
          simp at he
      · obtain ⟨sid, he, _, _⟩ := finallyClose_shape _ _ _ _ hfin
        simp at he
    · rintro ⟨_, _, hmem⟩
      exact absurd hmem hm

/-- Any fetch event of one step carries the step's index and the
percent-encoded URL, and only occurs when the item was not skipped. -/
theorem scrapeStep_fetch_shape (skipSites : List Str) (msi : ℚ) (i : Nat)
    (site : Str) (st : ℚ) (fr : FetchResult) (ioF : Bool) (ts : Str)
    (s : StepState) (j : Nat) (x : Str) (b : Bool)
    (hmem : Ev.fetch j x b ∈ (scrapeStep skipSites msi i site st fr ioF ts s).events) :
    j = i ∧ x = pyQuote site ∧ unquote (lastSeg site) ∉ skipSites := by
  by_cases hm : unquote (lastSeg site) ∈ skipSites
  · rw [scrapeStep_skipped skipSites msi i site st fr ioF ts s hm] at hmem
    simp at hmem
  · rw [scrapeStep_not_skipped skipSites msi i site st fr ioF ts s hm] at hmem
    simp only [List.mem_append, List.mem_singleton] at hmem
    rcases hmem with ((hc | hf) | hb) | hfin
    · rcases connDecision_shape _ _ _ _ _ hc with ⟨he, _, _⟩ | ⟨sid, he, _, _⟩ <;>
        simp at he
    · obtain ⟨hj, hx, _⟩ := Ev.fetch.inj hf
      exact ⟨hj, hx, hm⟩
    · rcases classifyFetch_shape _ _ _ _ _ _ _ hb with he | ⟨n, c, he⟩ | ⟨n, he⟩ <;>
        simp at he
    · obtain ⟨sid, he, _, _⟩ := finallyClose_shape _ _ _ _ hfin
      simp at he

/-- A non-skipped item always issues its network call: the step's events
contain a fetch at the step's index and encoded URL. -/
theorem scrapeStep_fetch_mem (skipSites : List Str) (msi : ℚ) (i : Nat)
    (site : Str) (st : ℚ) (fr : FetchResult) (ioF : Bool) (ts : Str)
    (s : StepState) (hnm : unquote (lastSeg site) ∉ skipSites) :
    Ev.fetch i (pyQuote site) (connDecision msi st s.session s.nextSid).1.isSome ∈
      (scrapeStep skipSites msi i site st fr ioF ts s).events := by
  rw [scrapeStep_not_skipped skipSites msi i site st fr ioF ts s hnm]
  simp

/-- Unless the fetch is interrupted, a step always falls through to the
next item: `"break"` is unreachable (`process_response_never_break`). -/
theorem scrapeStep_control_next (skipSites : List Str) (msi : ℚ) (i : Nat)
    (site : Str) (st : ℚ) (fr : FetchResult) (ioF : Bool) (ts : Str)
    (s : StepState) (hfr : ¬ fr = FetchResult.interrupt) :
    (scrapeStep skipSites msi i site st fr ioF ts s).control = Control.next := by
  by_cases hm : unquote (lastSeg site) ∈ skipSites
  · rw [scrapeStep_skipped skipSites msi i site st fr ioF ts s hm]
  · rw [scrapeStep_not_skipped skipSites msi i site st fr ioF ts s hm]
    cases fr with
    | interrupt => exact absurd rfl hfr
    | timeout => rfl
    | reqError => rfl
    | resp r =>
      simp only [classifyFetch]
      rw [if_neg (process_response_never_break r site st ts ioF s.fs)]

/-- Indexed events (skips and fetches) of a loop suffix starting at batch
position `i0` all carry an index `≥ i0`. -/
theorem scrapeLoop_idx_bound (skipSites : List Str) (msi : ℚ)
    (oracle : Nat → FetchResult) (ioF : Nat → Bool) (ts : Nat → Str) :
    ∀ (items : List (Str × ℚ)) (i0 : Nat) (s : StepState) (j : Nat) (x : Str),
      (Ev.skipEv j x ∈ (scrapeLoop skipSites msi oracle ioF ts items i0 s).events →
        i0 ≤ j) ∧
      (∀ b, Ev.fetch j x b ∈ (scrapeLoop skipSites msi oracle ioF ts items i0 s).events →
        i0 ≤ j) := by
  intro items
  induction items with
  | nil =>
    intro i0 s j x
    constructor
    · intro hmem
      obtain ⟨sid, he, _⟩ := closeEvs_shape _ _ hmem
      simp at he
    · intro b hmem
      obtain ⟨sid, he, _⟩ := closeEvs_shape _ _ hmem
      simp at he
  | cons p rest ih =>
    intro i0 s j x
    obtain ⟨site, st⟩ := p
    simp only [scrapeLoop]
    rcases hctrl : (scrapeStep skipSites msi i0 site st (oracle i0) (ioF i0) (ts i0) s).control with
      hnext | hbrk | hintr
    all_goals simp only [hctrl]
    case intr | brk =>
      constructor
      · intro hmem
        rcases List.mem_append.mp hmem with hstep | hclose
        · exact le_of_eq ((scrapeStep_skipEv_iff _ _ _ _ _ _ _ _ _ _ _).mp hstep).1.symm
        · obtain ⟨sid, he, _⟩ := closeEvs_shape _ _ hclose
          simp at he
      · intro b hmem
        rcases List.mem_append.mp hmem with hstep | hclose
        · exact le_of_eq (scrapeStep_fetch_shape _ _ _ _ _ _ _ _ _ _ _ _ hstep).1.symm
        · obtain ⟨sid, he, _⟩ := closeEvs_shape _ _ hclose
          simp at he
    case next =>
      constructor
      · intro hmem
        rcases List.mem_append.mp hmem with hstep | htail
        · exact le_of_eq ((scrapeStep_skipEv_iff _ _ _ _ _ _ _ _ _ _ _).mp hstep).1.symm
        · exact Nat.le_of_succ_le ((ih (i0 + 1) _ j x).1 htail)
      · intro b hmem
        rcases List.mem_append.mp hmem with hstep | htail
        · exact le_of_eq (scrapeStep_fetch_shape _ _ _ _ _ _ _ _ _ _ _ _ hstep).1.symm
        · exact Nat.le_of_succ_le ((ih (i0 + 1) _ j x).2 b htail)

/-- Per-item resume behaviour of the loop: when the oracle never raises
`KeyboardInterrupt`, item `k` of the remaining batch is skipped (skip
event, no fetch) exactly when its decoded trailing segment is in the skip
set, and fetched exactly when it is not — regardless of the loop state
`s`, in particular of any files written by earlier items. -/
theorem scrapeLoop_resume_iff (skipSites : List Str) (msi : ℚ)
    (oracle : Nat → FetchResult) (ioF : Nat → Bool) (ts : Nat → Str)
    (hnoint : ∀ j, ¬ oracle j = FetchResult.interrupt) :
    ∀ (items : List (Str × ℚ)) (i0 : Nat) (s : StepState) (k : Nat)
      (hk : k < items.length),
      (Ev.skipEv (i0 + k) (items.get ⟨k, hk⟩).1 ∈
          (scrapeLoop skipSites msi oracle ioF ts items i0 s).events ↔
        unquote (lastSeg (items.get ⟨k, hk⟩).1) ∈ skipSites) ∧
      ((∃ b, Ev.fetch (i0 + k) (pyQuote (items.get ⟨k, hk⟩).1) b ∈
          (scrapeLoop skipSites msi oracle ioF ts items i0 s).events) ↔
        ¬ unquote (lastSeg (items.get ⟨k, hk⟩).1) ∈ skipSites) := by
  intro items
  induction items with
  | nil =>
    intro i0 s k hk
    simp at hk
  | cons p rest ih =>
    intro i0 s k hk
    obtain ⟨site, st⟩ := p
    have hctrl : (scrapeStep skipSites msi i0 site st (oracle i0) (ioF i0) (ts i0) s).control =
        Control.next :=
      scrapeStep_control_next skipSites msi i0 site st (oracle i0) (ioF i0) (ts i0) s
        (hnoint i0)
    simp only [scrapeLoop, hctrl]
    cases k with
    | zero =>
      simp only [List.get_cons_zero, Nat.add_zero]
      constructor
      · constructor
        · intro hmem
          rcases List.mem_append.mp hmem with hstep | htail
          · exact ((scrapeStep_skipEv_iff _ _ _ _ _ _ _ _ _ _ _).mp hstep).2.2
          · have := (scrapeLoop_idx_bound skipSites msi oracle ioF ts rest (i0 + 1) _
              i0 site).1 htail
            omega
        · intro hmem
          exact List.mem_append.mpr (Or.inl
            ((scrapeStep_skipEv_iff _ _ _ _ _ _ _ _ _ _ _).mpr ⟨rfl, rfl, hmem⟩))
      · constructor
        · rintro ⟨b, hmem⟩
          rcases List.mem_append.mp hmem with hstep | htail
          · exact (scrapeStep_fetch_shape _ _ _ _ _ _ _ _ _ _ _ _ hstep).2.2
          · have := (scrapeLoop_idx_bound skipSites msi oracle ioF ts rest (i0 + 1) _
              i0 (pyQuote site)).2 b htail
            omega
        · intro hnm
          exact ⟨_, List.mem_append.mpr (Or.inl
            (scrapeStep_fetch_mem skipSites msi i0 site st (oracle i0) (ioF i0) (ts i0)
              s hnm))⟩
    | succ k' =>
      have hk' : k' < rest.length := by simpa using hk
      have harith : i0 + (k' + 1) = (i0 + 1) + k' := by omega
      have hget : ((site, st) :: rest).get ⟨k' + 1, hk⟩ = rest.get ⟨k', hk'⟩ := rfl
      rw [hget, harith]
      obtain ⟨ihskip, ihfetch⟩ := ih (i0 + 1)
        (scrapeStep skipSites msi i0 site st (oracle i0) (ioF i0) (ts i0) s).state k' hk'
      constructor
      · constructor
        · intro hmem
          rcases List.mem_append.mp hmem with hstep | htail
          · have := ((scrapeStep_skipEv_iff _ _ _ _ _ _ _ _ _ _ _).mp hstep).1
            omega
          · exact ihskip.mp htail
        · intro hmem
          exact List.mem_append.mpr (Or.inr (ihskip.mpr hmem))
      · constructor
        · rintro ⟨b, hmem⟩
          rcases List.mem_append.mp hmem with hstep | htail
          · have := (scrapeStep_fetch_shape _ _ _ _ _ _ _ _ _ _ _ _ hstep).1
            omega
          · exact ihfetch.mp ⟨b, htail⟩
        · intro hnm
          obtain ⟨b, hmem⟩ := ihfetch.mpr hnm
          exact ⟨b, List.mem_append.mpr (Or.inr hmem)⟩

/-- C7: the Resume Filter skips target `k` iff the target's decoded
trailing path segment appears in the resume set, and fetches it iff it
does not; the resume set is the store listing at batch start with each
filename cut at its first dot, computed once — the skip decision of every
item refers only to the store as it was at batch start (`fs0`), never to
files written during the run. -/
theorem resume_filter_snapshot (sites : List Str) (times : List ℚ) (msi : ℚ)
    (oracle : Nat → FetchResult) (ioF : Nat → Bool) (ts : Nat → Str) (fs0 : FS)
    (hnoint : ∀ j, ¬ oracle j = FetchResult.interrupt)
    (k : Nat) (hk : k < (sites.zip times).length) :
    (Ev.skipEv k ((sites.zip times).get ⟨k, hk⟩).1 ∈
        (scrape_sites sites times msi oracle ioF ts fs0).events ↔
      unquote (lastSeg ((sites.zip times).get ⟨k, hk⟩).1) ∈ resumeSet fs0) ∧
    ((∃ b, Ev.fetch k (pyQuote ((sites.zip times).get ⟨k, hk⟩).1) b ∈
        (scrape_sites sites times msi oracle ioF ts fs0).events) ↔
      ¬ unquote (lastSeg ((sites.zip times).get ⟨k, hk⟩).1) ∈ resumeSet fs0) ∧
    resumeSet fs0 = (fsList fs0).map splitDot := by
  have h := scrapeLoop_resume_iff (resumeSet fs0) msi oracle ioF ts hnoint
    (sites.zip times) 0 ⟨none, 0, fs0⟩ k hk
  simp only [Nat.zero_add] at h
  exact ⟨h.1, h.2, rfl⟩

/-- C7 witness: with `a.html` already stored, target `/a` of the batch
`[/a, /b]` is skipped (and its skip decision matches membership in the
start-of-batch resume set). -/
theorem resume_filter_snapshot_witness :
    (Ev.skipEv 0 ((["/a".toList, "/b".toList].zip [(2 : ℚ), 2]).get ⟨0, by decide⟩).1 ∈
        (scrape_sites ["/a".toList, "/b".toList] [(2 : ℚ), 2] 30
          (fun _ => FetchResult.resp ⟨200, "x".toList⟩) (fun _ => false)
          (fun _ => "T".toList) [("a.html".toList, "x".toList)]).events ↔
      unquote (lastSeg ((["/a".toList, "/b".toList].zip [(2 : ℚ), 2]).get
          ⟨0, by decide⟩).1) ∈ resumeSet [("a.html".toList, "x".toList)]) ∧
    ((∃ b, Ev.fetch 0 (pyQuote ((["/a".toList, "/b".toList].zip [(2 : ℚ), 2]).get
          ⟨0, by decide⟩).1) b ∈
        (scrape_sites ["/a".toList, "/b".toList] [(2 : ℚ), 2] 30
          (fun _ => FetchResult.resp ⟨200, "x".toList⟩) (fun _ => false)
          (fun _ => "T".toList) [("a.html".toList, "x".toList)]).events) ↔
      ¬ unquote (lastSeg ((["/a".toList, "/b".toList].zip [(2 : ℚ), 2]).get
          ⟨0, by decide⟩).1) ∈ resumeSet [("a.html".toList, "x".toList)]) ∧
    resumeSet [("a.html".toList, "x".toList)] =
      (fsList [("a.html".toList, "x".toList)]).map splitDot :=
  resume_filter_snapshot ["/a".toList, "/b".toList] [(2 : ℚ), 2] 30
    (fun _ => FetchResult.resp ⟨200, "x".toList⟩) (fun _ => false)
    (fun _ => "T".toList) [("a.html".toList, "x".toList)]
    (fun j => by simp) 0 (by decide)

/-- C10: the resume identifier of a stored filename is the substring
before its *first* dot (`split(".")[0]`), so every resume identifier is
dot-free; consequently a target whose decoded trailing path segment
contains a dot is never skipped, whatever the output store contains —
in particular even when its own artifact file exists. -/
theorem resume_id_first_dot_semantics :
    (∀ f : Str, splitDot f = f.takeWhile (fun c => c != '.')) ∧
    (∀ (fs : FS) (name : Str), '.' ∈ name → ¬ name ∈ resumeSet fs) ∧
    (∀ (fs : FS) (msi : ℚ) (i : Nat) (site : Str) (st : ℚ) (fr : FetchResult)
      (ioF : Bool) (ts : Str) (s : StepState) (j : Nat) (x : Str),
      '.' ∈ unquote (lastSeg site) →
      ¬ Ev.skipEv j x ∈ (scrapeStep (resumeSet fs) msi i site st fr ioF ts s).events) := by
  have hnot : ∀ (fs : FS) (name : Str), '.' ∈ name → ¬ name ∈ resumeSet fs := by
    intro fs name hdot hmem
    obtain ⟨f, _, heq⟩ := List.mem_map.mp hmem
    rw [splitDot_eq_takeWhile] at heq
    subst heq
    have := List.mem_takeWhile_imp hdot
    simp at this
  refine ⟨splitDot_eq_takeWhile, hnot, ?_⟩
  intro fs msi i site st fr ioF ts s j x hdot hmem
  exact hnot fs (unquote (lastSeg site)) hdot
    ((scrapeStep_skipEv_iff _ _ _ _ _ _ _ _ _ _ _).mp hmem).2.2

/-- C10 witness: the stored artifact `v1.5.html` yields resume id `v1`,
and the target `/v1.5` is not skipped although its artifact exists. -/
theorem resume_id_first_dot_semantics_witness :
    splitDot "v1.5.html".toList = "v1.5.html".toList.takeWhile (fun c => c != '.') ∧
    ¬ "v1.5".toList ∈ resumeSet [("v1.5.html".toList, "x".toList)] ∧
    ¬ Ev.skipEv 0 "/v1.5".toList ∈
      (scrapeStep (resumeSet [("v1.5.html".toList, "x".toList)]) 30 0 "/v1.5".toList 2
        (FetchResult.resp ⟨200, "x".toList⟩) false "T".toList ⟨none, 0, []⟩).events :=
  ⟨resume_id_first_dot_semantics.1 "v1.5.html".toList,
   resume_id_first_dot_semantics.2.1 [("v1.5.html".toList, "x".toList)] "v1.5".toList
     (by decide),
   resume_id_first_dot_semantics.2.2 [("v1.5.html".toList, "x".toList)] 30 0
     "/v1.5".toList 2 (FetchResult.resp ⟨200, "x".toList⟩) false "T".toList
     ⟨none, 0, []⟩ 0 "/v1.5".toList (by decide)⟩

/-- `sessTrace` distributes over `++`. -/
theorem sessTrace_append (a b : List Ev) :
    sessTrace (a ++ b) = sessTrace a ++ sessTrace b :=
  List.filterMap_append a b sessEv

/-- One step transforms the session subtrace exactly from its entry
session to its exit session: opens and closes inside a step are properly
matched against the loop-carried `session` variable. -/
theorem scrapeStep_sessTrace (skipSites : List Str) (msi : ℚ) (i : Nat)
    (site : Str) (st : ℚ) (fr : FetchResult) (ioF : Bool) (ts : Str)
    (s : StepState) (t : List (Bool × Nat)) :
    sdAux s.session
        (sessTrace (scrapeStep skipSites msi i site st fr ioF ts s).events ++ t) =
      sdAux (scrapeStep skipSites msi i site st fr ioF ts s).state.session t := by
  have hbody : List.filterMap sessEv (classifyFetch fr site st ts ioF s.fs).2.2 = [] := by
    rw [List.filterMap_eq_nil_iff]
    intro e he
    rcases classifyFetch_shape fr site st ts ioF s.fs e he with rfl | ⟨n, c, rfl⟩ | ⟨n, rfl⟩ <;>
      rfl
  by_cases hm : unquote (lastSeg site) ∈ skipSites
  · rw [scrapeStep_skipped skipSites msi i site st fr ioF ts s hm]
    simp [sessTrace, sessEv]
  · rw [scrapeStep_not_skipped skipSites msi i site st fr ioF ts s hm]
    by_cases hst : st < msi
    · cases hsess : s.session with
      | none =>
        simp [connDecision, finallyClose, hst, hsess, sessTrace_append, hbody,
          sessTrace, sessEv, sdAux, not_le.mpr hst]
      | some sid =>
        simp [connDecision, finallyClose, hst, hsess, sessTrace_append, hbody,
          sessTrace, sessEv, sdAux, not_le.mpr hst]
    · cases hsess : s.session with
      | none =>
        simp [connDecision, finallyClose, closeEvs, hst, hsess, sessTrace_append,
          hbody, sessTrace, sessEv, sdAux, le_of_not_lt hst]
      | some sid =>
        simp [connDecision, finallyClose, closeEvs, hst, hsess, sessTrace_append,
          hbody, sessTrace, sessEv, sdAux, le_of_not_lt hst]

/-- Whole-loop session discipline: starting from the loop-carried
session, the open/close subtrace alternates properly and ends with no
live session — on normal exhaustion, on `break`, and on
`KeyboardInterrupt`. -/
theorem scrapeLoop_session_discipline (skipSites : List Str) (msi : ℚ)
    (oracle : Nat → FetchResult) (ioF : Nat → Bool) (ts : Nat → Str) :
    ∀ (items : List (Str × ℚ)) (i0 : Nat) (s : StepState),
      sdAux s.session
        (sessTrace (scrapeLoop skipSites msi oracle ioF ts items i0 s).events) = true := by
  intro items
  induction items with
  | nil =>
    intro i0 s
    cases hsess : s.session with
    | none => simp [scrapeLoop, closeEvs, sessTrace, sessEv, sdAux, hsess]
    | some sid => simp [scrapeLoop, closeEvs, sessTrace, sessEv, sdAux, hsess]
  | cons p rest ih =>
    intro i0 s
    obtain ⟨site, st⟩ := p
    simp only [scrapeLoop]
    rcases hctrl : (scrapeStep skipSites msi i0 site st (oracle i0) (ioF i0) (ts i0) s).control
    all_goals simp only [hctrl]
    case next =>
      rw [sessTrace_append, scrapeStep_sessTrace]
      exact ih (i0 + 1) _
    all_goals {
      rw [sessTrace_append, scrapeStep_sessTrace]
      cases hfin : (scrapeStep skipSites msi i0 site st (oracle i0) (ioF i0) (ts i0) s).state.session with
      | none => simp [closeEvs, sessTrace, sessEv, sdAux, hfin]
      | some sid => simp [closeEvs, sessTrace, sessEv, sdAux, hfin]
    }

/-- Open events of one step happen only for the current item, lazily:
the delay is below the threshold, no session was live, and the id is the
fresh one. -/
theorem scrapeStep_openS_shape (skipSites : List Str) (msi : ℚ) (i : Nat)
    (site : Str) (st : ℚ) (fr : FetchResult) (ioF : Bool) (ts : Str)
    (s : StepState) (sid : Nat) (st' : ℚ)
    (hmem : Ev.openS sid st' ∈ (scrapeStep skipSites msi i site st fr ioF ts s).events) :
    st' = st ∧ st < msi ∧ s.session = none ∧ sid = s.nextSid := by
  by_cases hm : unquote (lastSeg site) ∈ skipSites
  · rw [scrapeStep_skipped skipSites msi i site st fr ioF ts s hm] at hmem
    simp at hmem
  · rw [scrapeStep_not_skipped skipSites msi i site st fr ioF ts s hm] at hmem
    simp only [List.mem_append, List.mem_singleton] at hmem
    rcases hmem with ((hc | hf) | hb) | hfin
    · rcases connDecision_shape _ _ _ _ _ hc with ⟨he, hn, hlt⟩ | ⟨sid', he, _, _⟩
      · obtain ⟨hsid, hst'⟩ := Ev.openS.inj he
        exact ⟨hst', hlt, hn, hsid⟩
      · simp at he
    · simp at hf
    · rcases classifyFetch_shape _ _ _ _ _ _ _ hb with he | ⟨n, c, he⟩ | ⟨n, he⟩ <;>
        simp at he
    · obtain ⟨sid', he, _, _⟩ := finallyClose_shape _ _ _ _ hfin
      simp at he

/-- Every open event of a whole run is triggered by a delay below the
session-reuse threshold. -/
theorem scrapeLoop_openS_lazy (skipSites : List Str) (msi : ℚ)
    (oracle : Nat → FetchResult) (ioF : Nat → Bool) (ts : Nat → Str) :
    ∀ (items : List (Str × ℚ)) (i0 : Nat) (s : StepState) (sid : Nat) (st' : ℚ),
      Ev.openS sid st' ∈ (scrapeLoop skipSites msi oracle ioF ts items i0 s).events →
      st' < msi := by
  intro items
  induction items with
  | nil =>
    intro i0 s sid st' hmem
    obtain ⟨sid', he, _⟩ := closeEvs_shape _ _ hmem
    simp at he
  | cons p rest ih =>
    intro i0 s sid st' hmem
    obtain ⟨site, st⟩ := p
    simp only [scrapeLoop] at hmem
    rcases hctrl : (scrapeStep skipSites msi i0 site st (oracle i0) (ioF i0) (ts i0) s).control
    all_goals rw [hctrl] at hmem
    case next =>
      rcases List.mem_append.mp hmem with hstep | htail
      · obtain ⟨hst', hlt, _, _⟩ := scrapeStep_openS_shape _ _ _ _ _ _ _ _ _ _ _ hstep
        rw [hst']
        exact hlt
      · exact ih (i0 + 1) _ sid st' htail
    all_goals {
      rcases List.mem_append.mp hmem with hstep | hclose
      · obtain ⟨hst', hlt, _, _⟩ := scrapeStep_openS_shape _ _ _ _ _ _ _ _ _ _ _ hstep
        rw [hst']
        exact hlt
      · obtain ⟨sid', he, _⟩ := closeEvs_shape _ _ hclose
        simp at he
    }

/-- C6 counterexample: after a per-request failure (timeout) on a
short-delay item, the failure cleanup does *not* close the session: the
`finally` clause only closes when the item's delay is at or above the
threshold, so the session opened for this item is still live when the
step ends. -/
theorem session_survives_failure_cleanup_cex :
    (scrapeStep [] 30 0 "/a".toList 2 FetchResult.timeout false "T".toList
      ⟨none, 0, []⟩).state.session = some 0 ∧
    ¬ Ev.closeS 0 ∈ (scrapeStep [] 30 0 "/a".toList 2 FetchResult.timeout false
      "T".toList ⟨none, 0, []⟩).events ∧
    Ev.openS 0 2 ∈ (scrapeStep [] 30 0 "/a".toList 2 FetchResult.timeout false
      "T".toList ⟨none, 0, []⟩).events := by
  refine ⟨by decide, by decide, by decide⟩

/-- C6 (amended): the session lifecycle of the Crawl Executor.  A session
is opened lazily only when the item's delay is below the session-reuse
threshold and no session is live (with a fresh id); whenever a fetched
item's delay is at or above the threshold the session is closed and
nulled before the request; per-request failure cleanup closes the session
only under that same threshold condition — after a short-delay failure
the session remains live for reuse; and over any whole run (graceful
exit, `break`, or cancellation) opens and closes alternate strictly — at
most one session instance is live at any time — every close names the
live session, and no session is left live at the end. -/
theorem session_lifecycle (skipSites : List Str) (msi : ℚ) (i : Nat)
    (site : Str) (st : ℚ) (fr : FetchResult) (ioF : Bool) (ts : Str)
    (s : StepState) (sites : List Str) (times : List ℚ)
    (oracle : Nat → FetchResult) (ioFr : Nat → Bool) (tsr : Nat → Str) (fs0 : FS) :
    (∀ sid st',
      Ev.openS sid st' ∈ (scrapeStep skipSites msi i site st fr ioF ts s).events →
      st' = st ∧ st < msi ∧ s.session = none ∧ sid = s.nextSid) ∧
    (∀ sid st',
      Ev.openS sid st' ∈ (scrape_sites sites times msi oracle ioFr tsr fs0).events →
      st' < msi) ∧
    (¬ unquote (lastSeg site) ∈ skipSites → ¬ st < msi →
      (scrapeStep skipSites msi i site st fr ioF ts s).state.session = none ∧
      ∀ sid, s.session = some sid →
        Ev.closeS sid ∈ (scrapeStep skipSites msi i site st fr ioF ts s).events) ∧
    (¬ unquote (lastSeg site) ∈ skipSites → st < msi →
      ((scrapeStep skipSites msi i site st FetchResult.timeout ioF ts s).state.session).isSome
        = true) ∧
    sdAux none
      (sessTrace (scrape_sites sites times msi oracle ioFr tsr fs0).events) = true := by
  refine ⟨fun sid st' => scrapeStep_openS_shape skipSites msi i site st fr ioF ts s sid st',
    fun sid st' => scrapeLoop_openS_lazy (resumeSet fs0) msi oracle ioFr tsr
      (sites.zip times) 0 ⟨none, 0, fs0⟩ sid st',
    ?_, ?_, scrapeLoop_session_discipline (resumeSet fs0) msi oracle ioFr tsr
      (sites.zip times) 0 ⟨none, 0, fs0⟩⟩
  · intro hnm hst
    rw [scrapeStep_not_skipped skipSites msi i site st fr ioF ts s hnm]
    constructor
    · simp [connDecision, hst, finallyClose]
    · intro sid hsid
      simp [connDecision, hst, hsid, closeEvs]
  · intro hnm hst
    rw [scrapeStep_not_skipped skipSites msi i site st FetchResult.timeout ioF ts s hnm]
    cases hsess : s.session with
    | none => simp [connDecision, hst, hsess, finallyClose, not_le.mpr hst]
    | some sid => simp [connDecision, hst, hsess, finallyClose, not_le.mpr hst]

/-- C6 witness: a long-delay item closes the live session before its
request, and a concrete one-item run's open/close subtrace passes the
discipline check. -/
theorem session_lifecycle_witness :
    ((scrapeStep [] 30 0 "/a".toList 40 FetchResult.timeout false "T".toList
        ⟨some 5, 6, []⟩).state.session = none ∧
      Ev.closeS 5 ∈ (scrapeStep [] 30 0 "/a".toList 40 FetchResult.timeout false
        "T".toList ⟨some 5, 6, []⟩).events) ∧
    sdAux none
      (sessTrace (scrape_sites ["/a".toList] [(2 : ℚ)] 30
        (fun _ => FetchResult.resp ⟨200, "x".toList⟩) (fun _ => false)
        (fun _ => "T".toList) []).events) = true := by
  have h := session_lifecycle [] 30 0 "/a".toList 40 FetchResult.timeout false
    "T".toList ⟨some 5, 6, []⟩ ["/a".toList] [(2 : ℚ)]
    (fun _ => FetchResult.resp ⟨200, "x".toList⟩) (fun _ => false)
    (fun _ => "T".toList) []
  obtain ⟨h3a, h3b⟩ := h.2.2.1 (by decide) (by decide)
  exact ⟨⟨h3a, h3b 5 rfl⟩, h.2.2.2.2⟩
